import Mathlib

/-!
Verification of the semantic core of the astroid fork under study
(`astroid/node_classes.py`): branch-exclusivity analysis (`are_exclusive`),
the scope-aware lookup filter (`LookupMixIn._filter_stmts`), the
inferred-value unpacker (`unpack_infer`), dictionary-literal item lookup
(`Dict.getitem`) and exception-handler matching (`ExceptHandler.catch`).

The syntax tree is embedded as an arena: nodes are natural-number indices
and every node stores the index of its parent, which is strictly smaller
(the tree is built strictly top-down, so a parent always precedes its
children in the arena).  All per-node attributes used by the analysed
functions are fields of `PyTree`.  Helpers that live outside the analysed
module (`frame`, `statement`, `assign_type` climbing, `parent_of`,
`has_base`, the default `_get_filtered_stmts`) are modelled from the
specification, as documented on each definition.
-/

/-- Node kinds distinguished by `isinstance` tests in the analysed code.
All other node classes behave uniformly here and are mapped to `otherK`. -/
inductive NKind
  | ifK
  | tryExceptK
  | exceptHandlerK
  | compK
  | assignNameK
  | delNameK
  | nameK
  | constK
  | forK
  | withK
  | deleteK
  | listK
  | tupleK
  | otherK
  deriving DecidableEq, Repr

/-- A value produced by the external inference engine: either a tree node or
the designated "value could not be determined" sentinel (`util.YES`). -/
inductive IVal
  | node (n : Nat)
  | yes
  deriving DecidableEq, Repr

/-- Constant payloads carried by `Const` nodes, restricted to the immutable
scalar constants relevant for dictionary keys.  Python equality on these
constants coincides with structural equality. -/
inductive CVal
  | intv (i : Int)
  | strv (s : String)
  | nonev
  deriving DecidableEq, Repr

/-- The exception class signalled by `Dict.getitem` on a failed lookup.  The
source deliberately raises `IndexError` (with a comment noting that
`KeyError` would be more precise), so both classes are modelled. -/
inductive PyExc
  | indexError
  | keyError
  deriving DecidableEq, Repr

/-- The syntax tree, embedded as an arena of nodes indexed by `Nat`.

* `parent` is the back-reference; `parent_lt` captures the top-down arena
  construction (a parent index is strictly below its children), which also
  makes the tree acyclic.
* `fieldOf n` is the name of the field of `parent n` holding `n`
  (for example "body", "orelse", "handlers", "test").
* `catchNames h` models `ExceptHandler.type`: `none` when the handler has no
  type clause, otherwise the names of the `Name` nodes inside the clause.
* `isFrame`, `isStatement`, `isAssignCapable` mark scope-capable,
  statement-capable and assignment-kind-capable nodes.
* `fromlineno` is the possibly-absent source start line.
* `hasBase a b` models `a.has_base(b)`: modelled from the spec,
  `defines_base_referencing` is true when `a` is a class definition whose
  base-class list references `b`.
* `elts`, `infer`, `items`, `constVal` carry the container elements, the
  external inference results, the dictionary key/value pairs and the
  constant payloads. -/
structure PyTree where
  parent : Nat → Option Nat
  kind : Nat → NKind
  fieldOf : Nat → String
  catchNames : Nat → Option (List String)
  isFrame : Nat → Bool
  isStatement : Nat → Bool
  isAssignCapable : Nat → Bool
  fromlineno : Nat → Option Int
  hasBase : Nat → Nat → Bool
  elts : Nat → List Nat
  infer : Nat → List IVal
  items : Nat → List (Nat × Nat)
  constVal : Nat → Option CVal
  parent_lt : ∀ i j, parent i = some j → j < i

theorem PyTree.parent_zero (t : PyTree) : t.parent 0 = none := by
  cases h : t.parent 0 with
  | none => rfl
  | some j => exact absurd (t.parent_lt 0 j h) (Nat.not_lt_zero j)

/-- Build a parent function from an explicit arena description; the guard
makes the strict-decrease invariant hold by construction. -/
def mkParent (l : List (Option Nat)) : Nat → Option Nat := fun n =>
  match l.get? n with
  | some (some p) => if p < n then some p else none
  | _ => none

theorem mkParent_lt (l : List (Option Nat)) :
    ∀ i j, mkParent l i = some j → j < i := by
  intro i j h
  unfold mkParent at h
  split at h
  · split at h
    · cases h; assumption
    · cases h
  · cases h

/-! ### Parent-chain climbing

All climbing helpers are defined with an explicit fuel argument so that
they compute by kernel reduction; since parents strictly decrease, a fuel
of `n + 1` always suffices when starting from node `n`, and the
`_stable` lemmas below show the fuel is irrelevant beyond that bound. -/

/-- Fuelled climb to the nearest ancestor-or-self satisfying `pred`. -/
def climbP (t : PyTree) (pred : Nat → Bool) : Nat → Nat → Option Nat
  | 0, _ => none
  | fuel + 1, n =>
    if pred n then some n
    else
      match t.parent n with
      | none => none
      | some p => climbP t pred fuel p

theorem climbP_stable (t : PyTree) (pred : Nat → Bool) :
    ∀ n f1 f2, n < f1 → n < f2 → climbP t pred f1 n = climbP t pred f2 n := by
  intro n
  induction n using Nat.strong_induction_on with
  | _ n ih =>
    intro f1 f2 h1 h2
    match f1, f2 with
    | g1 + 1, g2 + 1 =>
      show climbP t pred (g1 + 1) n = climbP t pred (g2 + 1) n
      unfold climbP
      by_cases hp : pred n
      · rw [if_pos hp, if_pos hp]
      · rw [if_neg hp, if_neg hp]
        cases hpar : t.parent n with
        | none => rfl
        | some p =>
          have hplt : p < n := t.parent_lt n p hpar
          exact ih p hplt g1 g2 (by omega) (by omega)

/-- Climb from `n` to the nearest ancestor-or-self satisfying `pred`,
returning `none` when the climb runs off the root (modelling the
`AttributeError` the Python code would raise there). -/
def climbAt (t : PyTree) (pred : Nat → Bool) (n : Nat) : Option Nat :=
  climbP t pred (n + 1) n

theorem climbAt_eq (t : PyTree) (pred : Nat → Bool) (n : Nat) :
    climbAt t pred n =
      if pred n then some n
      else
        match t.parent n with
        | none => none
        | some p => climbAt t pred p := by
  unfold climbAt
  show climbP t pred (n + 1) n = _
  unfold climbP
  by_cases hp : pred n
  · rw [if_pos hp, if_pos hp]
  · rw [if_neg hp, if_neg hp]
    cases hpar : t.parent n with
    | none => rfl
    | some p =>
      have hplt : p < n := t.parent_lt n p hpar
      exact climbP_stable t pred p n (p + 1) hplt (Nat.lt_succ_self p)

/-- Modelled from the spec: `enclosing_scope` / `NodeNG.frame` (the `bases`
module is not part of the analysed source) — self if scope-capable, else
the nearest scope-capable ancestor. -/
def frame (t : PyTree) (n : Nat) : Option Nat := climbAt t t.isFrame n

/-- Modelled from the spec: `enclosing_statement` / `NodeNG.statement` —
self if statement-capable, else the nearest statement-capable ancestor. -/
def statement (t : PyTree) (n : Nat) : Option Nat := climbAt t t.isStatement n

/-- Modelled from the spec: `assign_binding_kind` / `assign_type` (the
`mixins` module is not part of the analysed source) — the nearest
assignment-kind-capable ancestor-or-self, the AssignTarget node governing a
binding occurrence. -/
def assignType (t : PyTree) (n : Nat) : Option Nat := climbAt t t.isAssignCapable n

/-- Fuelled ancestor chain: the list of pairs `(ancestor, child on the path
from the start node)`, nearest ancestor first.  This is exactly the data
recorded by the first phase of `are_exclusive` (`stmt1_parents` together
with the `children` map). -/
def ancChainF (t : PyTree) : Nat → Nat → List (Nat × Nat)
  | 0, _ => []
  | fuel + 1, n =>
    match t.parent n with
    | none => []
    | some p => (p, n) :: ancChainF t fuel p

theorem ancChainF_stable (t : PyTree) :
    ∀ n f1 f2, n ≤ f1 → n ≤ f2 → ancChainF t f1 n = ancChainF t f2 n := by
  intro n
  induction n using Nat.strong_induction_on with
  | _ n ih =>
    intro f1 f2 h1 h2
    match f1, f2 with
    | 0, f2 =>
      have hn : n = 0 := Nat.le_zero.mp h1
      subst hn
      cases f2 with
      | zero => rfl
      | succ g2 =>
        show ([] : List (Nat × Nat)) = ancChainF t (g2 + 1) 0
        unfold ancChainF
        rw [t.parent_zero]
    | f1 + 1, 0 =>
      have hn : n = 0 := Nat.le_zero.mp h2
      subst hn
      show ancChainF t (f1 + 1) 0 = []
      unfold ancChainF
      rw [t.parent_zero]
    | g1 + 1, g2 + 1 =>
      show ancChainF t (g1 + 1) n = ancChainF t (g2 + 1) n
      unfold ancChainF
      cases hpar : t.parent n with
      | none => rfl
      | some p =>
        have hplt : p < n := t.parent_lt n p hpar
        dsimp only
        rw [ih p hplt g1 g2 (by omega) (by omega)]

/-- The ancestor chain of `n`, with the child on the path recorded for each
ancestor. -/
def ancChain (t : PyTree) (n : Nat) : List (Nat × Nat) := ancChainF t n n

theorem ancChainF_succ (t : PyTree) (fuel n : Nat) :
    ancChainF t (fuel + 1) n =
      match t.parent n with
      | none => []
      | some p => (p, n) :: ancChainF t fuel p := rfl

theorem ancChain_none (t : PyTree) {n : Nat} (h : t.parent n = none) :
    ancChain t n = [] := by
  unfold ancChain
  cases n with
  | zero => rfl
  | succ m =>
    rw [ancChainF_succ, h]

theorem ancChain_some (t : PyTree) {n p : Nat} (h : t.parent n = some p) :
    ancChain t n = (p, n) :: ancChain t p := by
  have hplt : p < n := t.parent_lt n p h
  unfold ancChain
  cases n with
  | zero => exact absurd h (by rw [t.parent_zero]; simp)
  | succ m =>
    show ancChainF t (m + 1) (m + 1) = _
    rw [ancChainF_succ, h]
    dsimp only
    rw [ancChainF_stable t p m p (by omega) (le_refl p)]

/-- The proper-ancestor chain of `n`, nearest first. -/
def chain (t : PyTree) (n : Nat) : List Nat := (ancChain t n).map Prod.fst

theorem chain_none (t : PyTree) {n : Nat} (h : t.parent n = none) :
    chain t n = [] := by
  unfold chain
  rw [ancChain_none t h]
  rfl

theorem chain_some (t : PyTree) {n p : Nat} (h : t.parent n = some p) :
    chain t n = p :: chain t p := by
  unfold chain
  rw [ancChain_some t h]
  rfl

/-- Modelled from the spec: `NodeNG.parent_of` — the first node structurally
contains the second, that is, it occurs on the second node's parent chain. -/
def parentOf (t : PyTree) (a b : Nat) : Bool := (chain t b).contains a

/-! ### Branch-exclusivity analysis (`are_exclusive`, node_classes.py 62-112) -/

/-- `ExceptHandler.catch` (node_classes.py 880-886): true when the handler has
no type clause or no exception-name list is given, otherwise true exactly
when some `Name` inside the type clause occurs among the given names (the
Python method returns `None`, which is falsy, in the remaining case). -/
def handlerCatch (t : PyTree) (h : Nat) (exc : Option (List String)) : Bool :=
  match t.catchNames h, exc with
  | none, _ => true
  | some _, none => true
  | some names, some excs => names.any (fun nm => excs.contains nm)

/-- First-match association lookup, modelling the `children` dictionary built
while indexing the first statement's parents (the chain has no duplicate
ancestors, so first-match agrees with the dictionary). -/
def lookupAnc (x : Nat) : List (Nat × Nat) → Option Nat
  | [] => none
  | (a, c) :: rest => if a = x then some c else lookupAnc x rest

/-- The decision taken by `are_exclusive` once the common ancestor `node` is
found, with `prev` the branch-root on the second statement's side and `c1`
the recorded branch-root on the first statement's side
(node_classes.py 90-109).

`locate_child` (not part of the analysed source; the spec describes it as
locating the named branch leading to a descendant) returns, for the
sequence-valued fields compared here (`body`, `orelse`, `handlers`), the
field's sequence object, so the identity comparisons on its second
component coincide with equality of field names; for the only
singleton field involved (`test` of `If`) two distinct children can never
share the field, so the same coincidence holds. -/
def decideAt (t : PyTree) (node prev c1 : Nat) (exc : Option (List String)) : Bool :=
  if t.kind node == NKind.ifK && exc.isNone then
    t.fieldOf prev != t.fieldOf c1
  else if t.kind node == NKind.tryExceptK then
    (let c2attr := t.fieldOf prev
     let c1attr := t.fieldOf c1
     if c1attr != c2attr then
       (c2attr == "body" && c1attr == "handlers" && handlerCatch t c1 exc) ||
       (c2attr == "handlers" && c1attr == "body" && handlerCatch t prev exc) ||
       (c2attr == "handlers" && c1attr == "orelse") ||
       (c2attr == "orelse" && c1attr == "handlers")
     else if c2attr == "handlers" && c1attr == "handlers" then
       prev != c1
     else false)
  else false

/-- Fuelled second phase of `are_exclusive`: climb the second statement's
parents until one is found among the first statement's indexed parents. -/
def climbExF (t : PyTree) (anc1 : List (Nat × Nat)) (exc : Option (List String)) :
    Nat → Nat → Bool
  | 0, _ => false
  | fuel + 1, prev =>
    match t.parent prev with
    | none => false
    | some node =>
      match lookupAnc node anc1 with
      | some c1 => decideAt t node prev c1 exc
      | none => climbExF t anc1 exc fuel node

theorem climbExF_stable (t : PyTree) (anc1 : List (Nat × Nat))
    (exc : Option (List String)) :
    ∀ n f1 f2, n ≤ f1 → n ≤ f2 →
      climbExF t anc1 exc f1 n = climbExF t anc1 exc f2 n := by
  intro n
  induction n using Nat.strong_induction_on with
  | _ n ih =>
    intro f1 f2 h1 h2
    match f1, f2 with
    | 0, f2 =>
      have hn : n = 0 := Nat.le_zero.mp h1
      subst hn
      cases f2 with
      | zero => rfl
      | succ g2 =>
        show false = climbExF t anc1 exc (g2 + 1) 0
        unfold climbExF
        rw [t.parent_zero]
    | f1 + 1, 0 =>
      have hn : n = 0 := Nat.le_zero.mp h2
      subst hn
      show climbExF t anc1 exc (f1 + 1) 0 = false
      unfold climbExF
      rw [t.parent_zero]
    | g1 + 1, g2 + 1 =>
      show climbExF t anc1 exc (g1 + 1) n = climbExF t anc1 exc (g2 + 1) n
      unfold climbExF
      cases hpar : t.parent n with
      | none => rfl
      | some p =>
        have hplt : p < n := t.parent_lt n p hpar
        dsimp only
        cases lookupAnc p anc1 with
        | some c1 => rfl
        | none => exact ih p hplt g1 g2 (by omega) (by omega)

theorem climbExF_succ (t : PyTree) (anc1 : List (Nat × Nat))
    (exc : Option (List String)) (fuel prev : Nat) :
    climbExF t anc1 exc (fuel + 1) prev =
      match t.parent prev with
      | none => false
      | some node =>
        match lookupAnc node anc1 with
        | some c1 => decideAt t node prev c1 exc
        | none => climbExF t anc1 exc fuel node := rfl

/-- The climb of `are_exclusive` from a given start node. -/
def climbEx (t : PyTree) (anc1 : List (Nat × Nat)) (exc : Option (List String))
    (prev : Nat) : Bool :=
  climbExF t anc1 exc prev prev

theorem climbEx_eq (t : PyTree) (anc1 : List (Nat × Nat))
    (exc : Option (List String)) (prev : Nat) :
    climbEx t anc1 exc prev =
      match t.parent prev with
      | none => false
      | some node =>
        match lookupAnc node anc1 with
        | some c1 => decideAt t node prev c1 exc
        | none => climbEx t anc1 exc node := by
  unfold climbEx
  cases prev with
  | zero =>
    rw [t.parent_zero]
    rfl
  | succ m =>
    show climbExF t anc1 exc (m + 1) (m + 1) = _
    rw [climbExF_succ]
    cases hpar : t.parent (m + 1) with
    | none => rfl
    | some p =>
      have hplt : p < m + 1 := t.parent_lt (m + 1) p hpar
      dsimp only
      cases lookupAnc p anc1 with
      | some c1 => rfl
      | none =>
        show climbExF t anc1 exc m p = climbExF t anc1 exc p p
        exact climbExF_stable t anc1 exc p m p (by omega) (le_refl p)

/-- `are_exclusive` (node_classes.py 62-112): index the first statement's
parents together with the child on the path to each, then climb the second
statement's parents; at the first shared ancestor decide according to its
kind, and return false when the trees are disjoint. -/
def are_exclusive (t : PyTree) (s1 s2 : Nat) (exc : Option (List String)) : Bool :=
  climbEx t (ancChain t s1) exc s2

/-- Fuelled search for the first shared ancestor, also returning the two
branch-roots: the recorded child on the first statement's side and the
climbing child on the second statement's side. -/
def fcAuxF (t : PyTree) (anc1 : List (Nat × Nat)) :
    Nat → Nat → Option (Nat × Nat × Nat)
  | 0, _ => none
  | fuel + 1, prev =>
    match t.parent prev with
    | none => none
    | some node =>
      match lookupAnc node anc1 with
      | some c1 => some (node, c1, prev)
      | none => fcAuxF t anc1 fuel node

theorem fcAuxF_stable (t : PyTree) (anc1 : List (Nat × Nat)) :
    ∀ n f1 f2, n ≤ f1 → n ≤ f2 → fcAuxF t anc1 f1 n = fcAuxF t anc1 f2 n := by
  intro n
  induction n using Nat.strong_induction_on with
  | _ n ih =>
    intro f1 f2 h1 h2
    match f1, f2 with
    | 0, f2 =>
      have hn : n = 0 := Nat.le_zero.mp h1
      subst hn
      cases f2 with
      | zero => rfl
      | succ g2 =>
        show none = fcAuxF t anc1 (g2 + 1) 0
        unfold fcAuxF
        rw [t.parent_zero]
    | f1 + 1, 0 =>
      have hn : n = 0 := Nat.le_zero.mp h2
      subst hn
      show fcAuxF t anc1 (f1 + 1) 0 = none
      unfold fcAuxF
      rw [t.parent_zero]
    | g1 + 1, g2 + 1 =>
      show fcAuxF t anc1 (g1 + 1) n = fcAuxF t anc1 (g2 + 1) n
      unfold fcAuxF
      cases hpar : t.parent n with
      | none => rfl
      | some p =>
        have hplt : p < n := t.parent_lt n p hpar
        dsimp only
        cases lookupAnc p anc1 with
        | some c1 => rfl
        | none => exact ih p hplt g1 g2 (by omega) (by omega)

theorem fcAuxF_succ (t : PyTree) (anc1 : List (Nat × Nat)) (fuel prev : Nat) :
    fcAuxF t anc1 (fuel + 1) prev =
      match t.parent prev with
      | none => none
      | some node =>
        match lookupAnc node anc1 with
        | some c1 => some (node, c1, prev)
        | none => fcAuxF t anc1 fuel node := rfl

/-- The first shared ancestor found while climbing from `prev`. -/
def fcAux (t : PyTree) (anc1 : List (Nat × Nat)) (prev : Nat) :
    Option (Nat × Nat × Nat) :=
  fcAuxF t anc1 prev prev

theorem fcAux_eq (t : PyTree) (anc1 : List (Nat × Nat)) (prev : Nat) :
    fcAux t anc1 prev =
      match t.parent prev with
      | none => none
      | some node =>
        match lookupAnc node anc1 with
        | some c1 => some (node, c1, prev)
        | none => fcAux t anc1 node := by
  unfold fcAux
  cases prev with
  | zero =>
    rw [t.parent_zero]
    rfl
  | succ m =>
    show fcAuxF t anc1 (m + 1) (m + 1) = _
    rw [fcAuxF_succ]
    cases hpar : t.parent (m + 1) with
    | none => rfl
    | some p =>
      have hplt : p < m + 1 := t.parent_lt (m + 1) p hpar
      dsimp only
      cases lookupAnc p anc1 with
      | some c1 => rfl
      | none =>
        show fcAuxF t anc1 m p = fcAuxF t anc1 p p
        exact fcAuxF_stable t anc1 p m p (by omega) (le_refl p)

/-- The first shared ancestor of the climb of `are_exclusive t s1 s2`,
together with the branch-root on each side: this is the nearest common
ancestor with the immediate children leading to each statement. -/
def firstCommon (t : PyTree) (s1 s2 : Nat) : Option (Nat × Nat × Nat) :=
  fcAux t (ancChain t s1) s2

theorem climbEx_eq_fcAux (t : PyTree) (anc1 : List (Nat × Nat))
    (exc : Option (List String)) :
    ∀ prev, climbEx t anc1 exc prev =
      match fcAux t anc1 prev with
      | none => false
      | some (node, c1, p) => decideAt t node p c1 exc := by
  intro prev
  induction prev using Nat.strong_induction_on with
  | _ prev ih =>
    rw [climbEx_eq, fcAux_eq]
    cases hpar : t.parent prev with
    | none => rfl
    | some node =>
      dsimp only
      cases lookupAnc node anc1 with
      | some c1 => rfl
      | none => exact ih node (t.parent_lt prev node hpar)

theorem are_exclusive_eq_fc (t : PyTree) (s1 s2 : Nat)
    (exc : Option (List String)) :
    are_exclusive t s1 s2 exc =
      match firstCommon t s1 s2 with
      | none => false
      | some (node, c1, p) => decideAt t node p c1 exc :=
  climbEx_eq_fcAux t (ancChain t s1) exc s2

/-! ### Structural facts about ancestor chains -/

theorem mem_chain_lt (t : PyTree) : ∀ n x, x ∈ chain t n → x < n := by
  intro n
  induction n using Nat.strong_induction_on with
  | _ n ih =>
    intro x hx
    cases hpar : t.parent n with
    | none =>
      rw [chain_none t hpar] at hx
      exact absurd hx (List.not_mem_nil x)
    | some p =>
      have hplt : p < n := t.parent_lt n p hpar
      rw [chain_some t hpar] at hx
      cases List.mem_cons.mp hx with
      | inl h => omega
      | inr h => exact lt_trans (ih p hplt x h) hplt

theorem chain_sub (t : PyTree) :
    ∀ n x, x ∈ chain t n → ∀ y, y ∈ chain t x → y ∈ chain t n := by
  intro n
  induction n using Nat.strong_induction_on with
  | _ n ih =>
    intro x hx y hy
    cases hpar : t.parent n with
    | none =>
      rw [chain_none t hpar] at hx
      exact absurd hx (List.not_mem_nil x)
    | some p =>
      have hplt : p < n := t.parent_lt n p hpar
      rw [chain_some t hpar] at hx ⊢
      cases List.mem_cons.mp hx with
      | inl h =>
        exact List.mem_cons_of_mem p (h ▸ hy)
      | inr h =>
        exact List.mem_cons_of_mem p (ih p hplt x h y hy)

theorem anc_mem_fst (t : PyTree) {n N c : Nat}
    (h : (N, c) ∈ ancChain t n) : N ∈ chain t n :=
  List.mem_map.mpr ⟨(N, c), h, rfl⟩

theorem chain_mem_pair (t : PyTree) {n M : Nat} (h : M ∈ chain t n) :
    ∃ c, (M, c) ∈ ancChain t n := by
  obtain ⟨⟨x, y⟩, hpr, he⟩ := List.mem_map.mp h
  dsimp at he
  subst he
  exact ⟨y, hpr⟩

theorem anc_mem_parent (t : PyTree) :
    ∀ n N c, (N, c) ∈ ancChain t n → t.parent c = some N := by
  intro n
  induction n using Nat.strong_induction_on with
  | _ n ih =>
    intro N c h
    cases hpar : t.parent n with
    | none =>
      rw [ancChain_none t hpar] at h
      exact absurd h (List.not_mem_nil _)
    | some p =>
      have hplt : p < n := t.parent_lt n p hpar
      rw [ancChain_some t hpar] at h
      cases List.mem_cons.mp h with
      | inl he =>
        obtain ⟨h1, h2⟩ := Prod.mk.injEq .. ▸ he
        subst h1
        subst h2
        exact hpar
      | inr htail => exact ih p hplt N c htail

theorem anc_mem_snd (t : PyTree) :
    ∀ n N c, (N, c) ∈ ancChain t n → c = n ∨ c ∈ chain t n := by
  intro n
  induction n using Nat.strong_induction_on with
  | _ n ih =>
    intro N c h
    cases hpar : t.parent n with
    | none =>
      rw [ancChain_none t hpar] at h
      exact absurd h (List.not_mem_nil _)
    | some p =>
      have hplt : p < n := t.parent_lt n p hpar
      rw [ancChain_some t hpar] at h
      rw [chain_some t hpar]
      cases List.mem_cons.mp h with
      | inl he =>
        obtain ⟨h1, h2⟩ := Prod.mk.injEq .. ▸ he
        exact Or.inl h2
      | inr htail =>
        cases ih p hplt N c htail with
        | inl he => exact Or.inr (he ▸ List.mem_cons_self p _)
        | inr hm => exact Or.inr (List.mem_cons_of_mem p hm)

theorem anc_pair_intro (t : PyTree) :
    ∀ n N c, t.parent c = some N → (c = n ∨ c ∈ chain t n) →
      (N, c) ∈ ancChain t n := by
  intro n
  induction n using Nat.strong_induction_on with
  | _ n ih =>
    intro N c hpc hc
    cases hc with
    | inl he =>
      subst he
      rw [ancChain_some t hpc]
      exact List.mem_cons_self _ _
    | inr hm =>
      cases hpar : t.parent n with
      | none =>
        rw [chain_none t hpar] at hm
        exact absurd hm (List.not_mem_nil _)
      | some p =>
        have hplt : p < n := t.parent_lt n p hpar
        rw [chain_some t hpar] at hm
        rw [ancChain_some t hpar]
        cases List.mem_cons.mp hm with
        | inl he =>
          exact List.mem_cons_of_mem _ (ih p hplt N c hpc (Or.inl he))
        | inr hm2 =>
          exact List.mem_cons_of_mem _ (ih p hplt N c hpc (Or.inr hm2))

theorem anc_pair_uniq (t : PyTree) :
    ∀ n N c c', (N, c) ∈ ancChain t n → (N, c') ∈ ancChain t n → c = c' := by
  intro n
  induction n using Nat.strong_induction_on with
  | _ n ih =>
    intro N c c' h1 h2
    cases hpar : t.parent n with
    | none =>
      rw [ancChain_none t hpar] at h1
      exact absurd h1 (List.not_mem_nil _)
    | some p =>
      have hplt : p < n := t.parent_lt n p hpar
      rw [ancChain_some t hpar] at h1 h2
      cases List.mem_cons.mp h1 with
      | inl he1 =>
        obtain ⟨hN1, hc1⟩ := Prod.mk.injEq .. ▸ he1
        cases List.mem_cons.mp h2 with
        | inl he2 =>
          obtain ⟨hN2, hc2⟩ := Prod.mk.injEq .. ▸ he2
          rw [hc1, hc2]
        | inr ht2 =>
          exact absurd (mem_chain_lt t p p (anc_mem_fst t (hN1 ▸ ht2))) (lt_irrefl p)
      | inr ht1 =>
        cases List.mem_cons.mp h2 with
        | inl he2 =>
          obtain ⟨hN2, hc2⟩ := Prod.mk.injEq .. ▸ he2
          exact absurd (mem_chain_lt t p p (anc_mem_fst t (hN2 ▸ ht1))) (lt_irrefl p)
        | inr ht2 => exact ih p hplt N c c' ht1 ht2

theorem lookupAnc_mem :
    ∀ (l : List (Nat × Nat)) (x c : Nat), lookupAnc x l = some c → (x, c) ∈ l := by
  intro l
  induction l with
  | nil => intro x c h; exact absurd h (by simp [lookupAnc])
  | cons pr rest ih =>
    intro x c h
    obtain ⟨a, b⟩ := pr
    unfold lookupAnc at h
    by_cases ha : a = x
    · rw [if_pos ha] at h
      cases h
      subst ha
      exact List.mem_cons_self _ _
    · rw [if_neg ha] at h
      exact List.mem_cons_of_mem _ (ih x c h)

theorem lookupAnc_none :
    ∀ (l : List (Nat × Nat)) (x : Nat), lookupAnc x l = none →
      ∀ c, (x, c) ∉ l := by
  intro l
  induction l with
  | nil => intro x _ c hm; exact absurd hm (List.not_mem_nil _)
  | cons pr rest ih =>
    intro x h c hm
    obtain ⟨a, b⟩ := pr
    unfold lookupAnc at h
    by_cases ha : a = x
    · rw [if_pos ha] at h
      cases h
    · rw [if_neg ha] at h
      cases List.mem_cons.mp hm with
      | inl he =>
        obtain ⟨h1, h2⟩ := Prod.mk.injEq .. ▸ he
        exact ha h1.symm
      | inr ht => exact ih x h c ht

theorem mem_chain_of_parent (t : PyTree) {x r N : Nat}
    (hp : t.parent r = some N) (hr : r = x ∨ r ∈ chain t x) :
    N ∈ chain t x := by
  cases hr with
  | inl he =>
    subst he
    rw [chain_some t hp]
    exact List.mem_cons_self _ _
  | inr hm =>
    have : N ∈ chain t r := by
      rw [chain_some t hp]
      exact List.mem_cons_self _ _
    exact chain_sub t x r hm N this

/-! ### The first shared ancestor: characterisation and symmetry -/

theorem fc_spec (t : PyTree) (s1 : Nat) :
    ∀ prev N r1 r2, fcAux t (ancChain t s1) prev = some (N, r1, r2) →
      (N, r1) ∈ ancChain t s1 ∧ t.parent r2 = some N ∧
      (r2 = prev ∨ r2 ∈ chain t prev) ∧
      ∀ M, M ∈ chain t prev → M ∈ chain t s1 → M = N ∨ M ∈ chain t N := by
  intro prev
  induction prev using Nat.strong_induction_on with
  | _ prev ih =>
    intro N r1 r2 h
    rw [fcAux_eq] at h
    cases hpar : t.parent prev with
    | none => rw [hpar] at h; cases h
    | some node =>
      rw [hpar] at h
      dsimp only at h
      cases hlk : lookupAnc node (ancChain t s1) with
      | some c1 =>
        rw [hlk] at h
        dsimp only at h
        cases h
        refine ⟨lookupAnc_mem _ _ _ hlk, hpar, Or.inl rfl, ?_⟩
        intro M hM _
        rw [chain_some t hpar] at hM
        exact List.mem_cons.mp hM
      | none =>
        rw [hlk] at h
        dsimp only at h
        obtain ⟨A, B, C, D⟩ := ih node (t.parent_lt prev node hpar) N r1 r2 h
        refine ⟨A, B, ?_, ?_⟩
        · rw [chain_some t hpar]
          cases C with
          | inl he => exact Or.inr (he ▸ List.mem_cons_self node _)
          | inr hm => exact Or.inr (List.mem_cons_of_mem node hm)
        · intro M hM hM1
          rw [chain_some t hpar] at hM
          cases List.mem_cons.mp hM with
          | inl he =>
            exfalso
            have hnode : node ∈ chain t s1 := he ▸ hM1
            obtain ⟨c, hc⟩ := chain_mem_pair t hnode
            exact lookupAnc_none _ node hlk c hc
          | inr hm => exact D M hm hM1

theorem fc_total (t : PyTree) (s1 : Nat) :
    ∀ prev M, M ∈ chain t prev → M ∈ chain t s1 →
      (fcAux t (ancChain t s1) prev).isSome := by
  intro prev
  induction prev using Nat.strong_induction_on with
  | _ prev ih =>
    intro M hM hM1
    rw [fcAux_eq]
    cases hpar : t.parent prev with
    | none =>
      rw [chain_none t hpar] at hM
      exact absurd hM (List.not_mem_nil _)
    | some node =>
      dsimp only
      cases hlk : lookupAnc node (ancChain t s1) with
      | some c1 => rfl
      | none =>
        rw [chain_some t hpar] at hM
        cases List.mem_cons.mp hM with
        | inl he =>
          exfalso
          have hnode : node ∈ chain t s1 := he ▸ hM1
          obtain ⟨c, hc⟩ := chain_mem_pair t hnode
          exact lookupAnc_none _ node hlk c hc
        | inr hm => exact ih node (t.parent_lt prev node hpar) M hm hM1

theorem fc_comm (t : PyTree) (s1 s2 N r1 r2 : Nat)
    (h : firstCommon t s1 s2 = some (N, r1, r2)) :
    firstCommon t s2 s1 = some (N, r2, r1) := by
  obtain ⟨A1, A2, A3, A4⟩ := fc_spec t s1 s2 N r1 r2 h
  have hN1 : N ∈ chain t s1 := anc_mem_fst t A1
  have hN2 : N ∈ chain t s2 := mem_chain_of_parent t A2 A3
  have htot := fc_total t s2 s1 N hN1 hN2
  cases hr : firstCommon t s2 s1 with
  | none => rw [show firstCommon t s2 s1 = fcAux t (ancChain t s2) s1 from rfl] at hr; rw [hr] at htot; cases htot
  | some tr =>
    obtain ⟨Nb, rb1, rb2⟩ := tr
    obtain ⟨B1, B2, B3, B4⟩ := fc_spec t s2 s1 Nb rb1 rb2 hr
    have hNb1 : N = Nb ∨ N ∈ chain t Nb := B4 N hN1 hN2
    have hNb2 : Nb = N ∨ Nb ∈ chain t N :=
      A4 Nb (anc_mem_fst t B1) (mem_chain_of_parent t B2 B3)
    have hNN : N = Nb := by
      cases hNb1 with
      | inl he => exact he
      | inr hm1 =>
        cases hNb2 with
        | inl he => exact he.symm
        | inr hm2 =>
          have l1 := mem_chain_lt t Nb N hm1
          have l2 := mem_chain_lt t N Nb hm2
          omega
    subst hNN
    have hpair2 : (N, r2) ∈ ancChain t s2 := anc_pair_intro t s2 N r2 A2 A3
    have hrb1 : rb1 = r2 := anc_pair_uniq t s2 N rb1 r2 B1 hpair2
    have hpair1 : (N, rb2) ∈ ancChain t s1 := anc_pair_intro t s1 N rb2 B2 B3
    have hrb2 : rb2 = r1 := anc_pair_uniq t s1 N rb2 r1 hpair1 A1
    rw [hrb1, hrb2]

theorem fc_none_comm (t : PyTree) (s1 s2 : Nat)
    (h : firstCommon t s1 s2 = none) : firstCommon t s2 s1 = none := by
  cases hr : firstCommon t s2 s1 with
  | none => rfl
  | some tr =>
    obtain ⟨Nb, rb1, rb2⟩ := tr
    exfalso
    obtain ⟨B1, B2, B3, _⟩ := fc_spec t s2 s1 Nb rb1 rb2 hr
    have hN2 : Nb ∈ chain t s2 := anc_mem_fst t B1
    have hN1 : Nb ∈ chain t s1 := mem_chain_of_parent t B2 B3
    have htot := fc_total t s1 s2 Nb hN2 hN1
    rw [show firstCommon t s1 s2 = fcAux t (ancChain t s1) s2 from rfl] at h
    rw [h] at htot
    cases htot

/-! ### Symmetry of the per-ancestor decision and of `are_exclusive` -/

theorem bne_comm_nat (a b : Nat) : (a != b) = (b != a) := by
  rw [Bool.eq_iff_iff]
  simp only [bne_iff_ne]
  exact ne_comm

theorem bne_comm_str (a b : String) : (a != b) = (b != a) := by
  rw [Bool.eq_iff_iff]
  simp only [bne_iff_ne]
  exact ne_comm

theorem bool_disj_comm (b1 h1 o1 b2 h2 o2 ca cb : Bool) :
    ((b1 && h2 && cb) || (h1 && b2 && ca) || (h1 && o2) || (o1 && h2))
      = ((b2 && h1 && ca) || (h2 && b1 && cb) || (h2 && o1) || (o2 && h1)) := by
  cases b1 <;> cases h1 <;> cases o1 <;> cases b2 <;> cases h2 <;> cases o2 <;>
    cases ca <;> cases cb <;> rfl

theorem decideAt_self (t : PyTree) (N x : Nat) (exc : Option (List String)) :
    decideAt t N x x exc = false := by
  unfold decideAt
  by_cases h1 : (t.kind N == NKind.ifK && exc.isNone) = true
  · rw [if_pos h1]
    simp
  · rw [if_neg h1]
    by_cases h2 : (t.kind N == NKind.tryExceptK) = true
    · rw [if_pos h2]
      simp
    · rw [if_neg h2]

theorem decideAt_comm (t : PyTree) (N a b : Nat) (exc : Option (List String)) :
    decideAt t N a b exc = decideAt t N b a exc := by
  unfold decideAt
  by_cases h1 : (t.kind N == NKind.ifK && exc.isNone) = true
  · rw [if_pos h1, if_pos h1]
    exact bne_comm_str _ _
  · rw [if_neg h1, if_neg h1]
    by_cases h2 : (t.kind N == NKind.tryExceptK) = true
    · rw [if_pos h2, if_pos h2]
      dsimp only
      rw [bne_comm_str (t.fieldOf a) (t.fieldOf b)]
      by_cases h3 : (t.fieldOf b != t.fieldOf a) = true
      · rw [if_pos h3, if_pos h3]
        exact bool_disj_comm _ _ _ _ _ _ _ _
      · rw [if_neg h3, if_neg h3]
        rw [Bool.and_comm (t.fieldOf a == "handlers") (t.fieldOf b == "handlers")]
        by_cases h4 : (t.fieldOf b == "handlers" && t.fieldOf a == "handlers") = true
        · rw [if_pos h4, if_pos h4]
          exact bne_comm_nat a b
        · rw [if_neg h4, if_neg h4]
    · rw [if_neg h2, if_neg h2]

theorem are_exclusive_comm (t : PyTree) (a b : Nat) (exc : Option (List String)) :
    are_exclusive t a b exc = are_exclusive t b a exc := by
  rw [are_exclusive_eq_fc, are_exclusive_eq_fc]
  cases h : firstCommon t a b with
  | none => rw [fc_none_comm t a b h]
  | some tr =>
    obtain ⟨N, r1, r2⟩ := tr
    rw [fc_comm t a b N r1 r2 h]
    exact decideAt_comm t N r2 r1 exc

/-- When one node lies on the other's parent chain, the climb meets the
first shared ancestor with the same branch-root on both sides, and every
branch of the decision then answers false. -/
theorem are_exclusive_ancestor (t : PyTree) (s1 s2 : Nat)
    (exc : Option (List String)) (h : s1 ∈ chain t s2) :
    are_exclusive t s1 s2 exc = false := by
  rw [are_exclusive_eq_fc]
  cases hq : t.parent s1 with
  | none =>
    cases hfc : firstCommon t s1 s2 with
    | none => rfl
    | some tr =>
      obtain ⟨N, r1, r2⟩ := tr
      obtain ⟨A1, _, _, _⟩ := fc_spec t s1 s2 N r1 r2 hfc
      rw [ancChain_none t hq] at A1
      exact absurd A1 (List.not_mem_nil _)
  | some q =>
    have hq1 : q ∈ chain t s1 := by
      rw [chain_some t hq]
      exact List.mem_cons_self _ _
    have hq2 : q ∈ chain t s2 := chain_sub t s2 s1 h q hq1
    have htot := fc_total t s1 s2 q hq2 hq1
    cases hfc : firstCommon t s1 s2 with
    | none =>
      exfalso
      rw [show firstCommon t s1 s2 = fcAux t (ancChain t s1) s2 from rfl] at hfc
      rw [hfc] at htot
      cases htot
    | some tr =>
      obtain ⟨N, r1, r2⟩ := tr
      obtain ⟨A1, A2, A3, A4⟩ := fc_spec t s1 s2 N r1 r2 hfc
      have hNq : N = q := by
        have hNmem : N ∈ chain t s1 := anc_mem_fst t A1
        have h1 : N = q ∨ N ∈ chain t q := by
          rw [chain_some t hq] at hNmem
          exact List.mem_cons.mp hNmem
        have h2 : q = N ∨ q ∈ chain t N := A4 q hq2 hq1
        cases h1 with
        | inl he => exact he
        | inr hm1 =>
          cases h2 with
          | inl he => exact he.symm
          | inr hm2 =>
            have l1 := mem_chain_lt t q N hm1
            have l2 := mem_chain_lt t N q hm2
            omega
      subst hNq
      have hr1 : r1 = s1 := by
        rw [ancChain_some t hq] at A1
        cases List.mem_cons.mp A1 with
        | inl he =>
          obtain ⟨e1, e2⟩ := Prod.mk.injEq .. ▸ he
          exact e2
        | inr ht =>
          exact absurd (mem_chain_lt t N N (anc_mem_fst t ht)) (lt_irrefl N)
      have hpairs1 : (N, s1) ∈ ancChain t s2 := anc_pair_intro t s2 N s1 hq (Or.inr h)
      have hpairr2 : (N, r2) ∈ ancChain t s2 := anc_pair_intro t s2 N r2 A2 A3
      have hr2 : r2 = s1 := anc_pair_uniq t s2 N r2 s1 hpairr2 hpairs1
      dsimp only
      rw [hr1, hr2]
      exact decideAt_self t N s1 exc

/-! ### Inferred-value unpacking (`unpack_infer`, node_classes.py 39-59) -/

/-- `unpack_infer`: for a literal list/tuple, recursively unpack the
elements; otherwise look at the first inferred value — if it is the node
itself, yield just it; otherwise yield every fully-inferred value, passing
the undetermined sentinel through unchanged and recursively unpacking
everything else.  The fuel argument models the recursion (call-stack)
depth; an empty inference result yields nothing, matching the silent
termination of the generator when `next` finds no value. -/
def unpack_infer (t : PyTree) : Nat → Nat → List IVal
  | 0, _ => []
  | fuel + 1, stmt =>
    if t.kind stmt = NKind.listK ∨ t.kind stmt = NKind.tupleK then
      (t.elts stmt).flatMap (fun elt => unpack_infer t fuel elt)
    else
      match t.infer stmt with
      | [] => []
      | first :: _ =>
        if first = IVal.node stmt then [first]
        else
          (t.infer stmt).flatMap (fun iv =>
            match iv with
            | IVal.yes => [IVal.yes]
            | IVal.node n => unpack_infer t fuel n)

/-! ### Dictionary-literal item lookup (`Dict.getitem`, node_classes.py 823-833) -/

/-- One inferred key matches the lookup key when it is a `Const` node whose
payload equals the key; the undetermined sentinel is skipped. -/
def inferredKeyMatches (t : PyTree) (iv : IVal) (k : CVal) : Bool :=
  match iv with
  | IVal.yes => false
  | IVal.node n => t.kind n == NKind.constK && t.constVal n == some k

/-- The scan of `Dict.getitem` over the key/value pairs: return the value of
the first pair whose key infers to a matching constant, else raise
`IndexError` (deliberately not `KeyError`; see the source comment). -/
def dict_getitem_items (t : PyTree) (k : CVal) : List (Nat × Nat) → Except PyExc Nat
  | [] => Except.error PyExc.indexError
  | (key, value) :: rest =>
    if (t.infer key).any (fun iv => inferredKeyMatches t iv k) then Except.ok value
    else dict_getitem_items t k rest

/-- `Dict.getitem` on the dictionary node `d` with lookup key `k`. -/
def dict_getitem (t : PyTree) (d : Nat) (k : CVal) : Except PyExc Nat :=
  dict_getitem_items t k (t.items d)

/-- The claim-side description of dictionary lookup: the value paired with
the first key whose inference yields a constant equal to the lookup key. -/
def dictLookupSpec (t : PyTree) (k : CVal) (items : List (Nat × Nat)) : Option Nat :=
  (items.find? (fun kv =>
    (t.infer kv.fst).any (fun iv => inferredKeyMatches t iv k))).map Prod.snd

theorem dict_getitem_items_eq_find (t : PyTree) (k : CVal) :
    ∀ items : List (Nat × Nat),
      dict_getitem_items t k items =
        match dictLookupSpec t k items with
        | some v => Except.ok v
        | none => Except.error PyExc.indexError := by
  intro items
  induction items with
  | nil => rfl
  | cons pr rest ih =>
    obtain ⟨key, value⟩ := pr
    unfold dict_getitem_items dictLookupSpec
    rw [List.find?]
    by_cases hm : ((t.infer key).any (fun iv => inferredKeyMatches t iv k)) = true
    · rw [if_pos hm, hm]
      rfl
    · rw [if_neg hm]
      rw [Bool.not_eq_true] at hm
      rw [hm]
      exact ih

/-! ### The scope-aware lookup filter (`_filter_stmts`, node_classes.py 190-307) -/

/-- The `optional_assign` attribute of an assignment-kind node: `For` and
`Comprehension` set it to true in the analysed source; with-item targets
are optional per the spec, and the remaining kinds default to false
(modelled from the spec: the base-class default is not part of the
analysed source, and the spec lists loop, comprehension and with targets
as the optional bindings). -/
def optionalAssign : NKind → Bool
  | NKind.forK => true
  | NKind.compK => true
  | NKind.withK => true
  | _ => false

/-- Dispatch of `assign_type._get_filtered_stmts`.

The comprehension case is translated from the analysed source
(node_classes.py 693-705).  Modelled from the spec: only comprehension
targets and exception-handler names define a short-circuit rule, so the
exception-handler case mirrors the comprehension's statement test and
every other kind is a no-op returning the accumulator unchanged.  A `none`
result models a raised exception while computing `self.statement()`. -/
def getFilteredStmts (t : PyTree) (aty lnode node : Nat) (acc : List Nat)
    (mystmt : Nat) : Option (List Nat × Bool) :=
  match t.kind aty with
  | NKind.compK =>
    if aty = mystmt then
      if t.kind lnode = NKind.constK ∨ t.kind lnode = NKind.nameK then
        some ([lnode], true)
      else some (acc, false)
    else
      match statement t aty with
      | none => none
      | some s => if s = mystmt then some ([node], true) else some (acc, false)
  | NKind.exceptHandlerK =>
    match statement t aty with
    | none => none
    | some s => if s = mystmt then some ([node], true) else some (acc, false)
  | _ => some (acc, false)

/-- The line-horizon test of the scan (node_classes.py 238): no break when
the horizon is disabled (`mylineno ≤ 0`); with the horizon enabled, break
exactly when the candidate statement's start line exceeds it, and fail
(`none`) when that statement has no start line (comparing a missing line
number is a type error). -/
def lineCheck (t : PyTree) (mylineno : Int) (stmt : Nat) : Option Bool :=
  if 0 < mylineno then
    match t.fromlineno stmt with
    | none => none
    | some l => some (decide (mylineno < l))
  else some false

/-- The same-block bookkeeping of the scan (node_classes.py 260-295): look
for the candidate statement's parent among the recorded parents; on a hit,
keep both when the earlier accumulated binding construct contains the
current one (and skip the rest of this iteration — the `true` flag),
otherwise drop the earlier candidate unless the current binding is
optional or the two are mutually exclusive. -/
def pindexStep (t : PyTree) (aty : Nat) (opt : Bool) (acc1 : List Nat)
    (accP : List (Option Nat)) (node stmt : Nat) :
    Option (List Nat × List (Option Nat) × Bool) :=
  match List.findIdx? (fun p => p == t.parent stmt) accP with
  | none => some (acc1, accP, false)
  | some pindex =>
    match acc1.get? pindex with
    | none => none
    | some prevNode =>
      match assignType t prevNode with
      | none => none
      | some paty =>
        if parentOf t paty aty then some (acc1, accP, true)
        else if opt || are_exclusive t prevNode node none then
          some (acc1, accP, false)
        else
          some (acc1.eraseIdx pindex, accP.eraseIdx pindex, false)

/-- The `AssignName` dominating-reassignment rule (node_classes.py 296-299):
a non-optional name assignment whose statement shares the use statement's
parent block clears the whole accumulator before the final append. -/
def clearedPair (t : PyTree) (opt : Bool) (node stmt mystmt : Nat)
    (acc2 : List Nat) (accP2 : List (Option Nat)) :
    List Nat × List (Option Nat) :=
  if t.kind node = NKind.assignNameK then
    if opt = false ∧ t.parent stmt = t.parent mystmt then
      (([] : List Nat), ([] : List (Option Nat)))
    else (acc2, accP2)
  else (acc2, accP2)

/-- Outcome of one iteration of the scan over a candidate. -/
inductive StepRes
  | err
  | brk (res : List Nat)
  | cont (acc : List Nat) (accP : List (Option Nat))
  deriving DecidableEq, Repr

/-- One iteration of the scan of `_filter_stmts` (node_classes.py 240-306),
after the line-horizon test: compute the candidate's assignment kind
(its absence models the assertion failure), break on a self-referential
base-class candidate, run the `_get_filtered_stmts` hook, handle the
loop-variable restart, the same-block bookkeeping, the `AssignName`
dominating-reassignment clearing and the `DelName` clearing, and finally
append the candidate unless it is mutually exclusive with the use node. -/
def scanBody (t : PyTree) (lnode mystmt : Nat) (acc : List Nat)
    (accP : List (Option Nat)) (node stmt : Nat) : StepRes :=
  match assignType t node with
  | none => StepRes.err
  | some aty =>
    if t.hasBase node lnode then StepRes.brk acc
    else
      match getFilteredStmts t aty lnode node acc mystmt with
      | none => StepRes.err
      | some (acc1, done) =>
        if done then StepRes.brk acc1
        else
          (let opt := optionalAssign (t.kind aty)
           if opt && parentOf t aty lnode then
             StepRes.cont [node] [t.parent stmt]
           else
             match pindexStep t aty opt acc1 accP node stmt with
             | none => StepRes.err
             | some (acc2, accP2, true) => StepRes.cont acc2 accP2
             | some (acc2, accP2, false) =>
               (let pair := clearedPair t opt node stmt mystmt acc2 accP2
                if t.kind node = NKind.delNameK then StepRes.cont [] []
                else if are_exclusive t lnode node none then
                  StepRes.cont pair.1 pair.2
                else
                  StepRes.cont (pair.1 ++ [node]) (pair.2 ++ [t.parent stmt])))

/-- The scan loop of `_filter_stmts` (node_classes.py 233-307): process the
candidates in order, each through its statement, the line-horizon test and
`scanBody`, threading the accumulator of live candidates and the parallel
list of their statements' parent blocks. -/
def scanLoop (t : PyTree) (lnode mystmt : Nat) (mylineno : Int) :
    List Nat → List (Option Nat) → List Nat → Option (List Nat)
  | acc, _, [] => some acc
  | acc, accP, node :: rest =>
    match statement t node with
    | none => none
    | some stmt =>
      match lineCheck t mylineno stmt with
      | none => none
      | some true => some acc
      | some false =>
        match scanBody t lnode mystmt acc accP node stmt with
        | StepRes.err => none
        | StepRes.brk res => some res
        | StepRes.cont acc2 accP2 => scanLoop t lnode mystmt mylineno acc2 accP2 rest

/-- The scan loop with the line horizon removed: what `_filter_stmts` does
when line filtering is disabled. -/
def scanLoopNC (t : PyTree) (lnode mystmt : Nat) :
    List Nat → List (Option Nat) → List Nat → Option (List Nat)
  | acc, _, [] => some acc
  | acc, accP, node :: rest =>
    match statement t node with
    | none => none
    | some stmt =>
      match scanBody t lnode mystmt acc accP node stmt with
      | StepRes.err => none
      | StepRes.brk res => some res
      | StepRes.cont acc2 accP2 => scanLoopNC t lnode mystmt acc2 accP2 rest

/-- The effective defining scope of the use node (node_classes.py 202-219):
with offset -1 the frame of the parent of the use node's frame, otherwise
the use node's frame, moved one frame out when the use node's statement is
that frame itself (the definition-header sub-rule) and a parent exists.
`none` models the exception raised when a climb runs off the root. -/
def effectiveFrame (t : PyTree) (lnode : Nat) (offset : Int) : Option Nat :=
  if offset = -1 then
    match frame t lnode with
    | none => none
    | some f =>
      match t.parent f with
      | none => none
      | some p => frame t p
  else
    match frame t lnode with
    | none => none
    | some f =>
      match statement t lnode with
      | none => none
      | some st =>
        if st = f then
          match t.parent f with
          | some p => frame t p
          | none => some f
        else some f

/-- `_filter_stmts` (node_classes.py 190-307): compute the effective
defining scope; if it is not the frame owning the candidates (or the use
node is that frame itself), return the candidates unchanged; otherwise
compute the line horizon from the use statement's start line plus the
offset (0 when the start line is absent) and run the scan. -/
def filter_stmts (t : PyTree) (lnode : Nat) (stmts : List Nat) (fr : Nat)
    (offset : Int) : Option (List Nat) :=
  match effectiveFrame t lnode offset with
  | none => none
  | some myframe =>
    if myframe ≠ fr ∨ lnode = fr then some stmts
    else
      match statement t lnode with
      | none => none
      | some mystmt =>
        scanLoop t lnode mystmt
          (match t.fromlineno mystmt with
           | some l => l + offset
           | none => 0) [] [] stmts

/-- A candidate is past the line horizon `m` when its statement resolves
and has a start line exceeding `m`. -/
def exceedsB (t : PyTree) (m : Int) (n : Nat) : Bool :=
  match statement t n with
  | some s =>
    match t.fromlineno s with
    | some l => decide (m < l)
    | none => false
  | none => false

/-! ### Properties of the scan components -/

theorem lineCheck_nonpos (t : PyTree) (m : Int) (s : Nat) (h : m ≤ 0) :
    lineCheck t m s = some false := by
  unfold lineCheck
  rw [if_neg (by omega)]

theorem lineCheck_false (t : PyTree) (m : Int) (s : Nat) (hm : 0 < m)
    (h : lineCheck t m s = some false) :
    ∃ l, t.fromlineno s = some l ∧ l ≤ m := by
  unfold lineCheck at h
  rw [if_pos hm] at h
  cases hfl : t.fromlineno s with
  | none => rw [hfl] at h; cases h
  | some l =>
    rw [hfl] at h
    refine ⟨l, rfl, ?_⟩
    have := Option.some.injEq .. ▸ h
    by_cases hlt : m < l
    · simp [hlt] at this
    · omega

theorem clearedPair_fst (t : PyTree) (opt : Bool) (node stmt mystmt : Nat)
    (acc2 : List Nat) (accP2 : List (Option Nat)) :
    (clearedPair t opt node stmt mystmt acc2 accP2).1 = [] ∨
      (clearedPair t opt node stmt mystmt acc2 accP2).1 = acc2 := by
  unfold clearedPair
  split
  · split
    · exact Or.inl rfl
    · exact Or.inr rfl
  · exact Or.inr rfl

theorem getFilteredStmts_res (t : PyTree) (aty lnode node : Nat)
    (acc : List Nat) (mystmt : Nat) (a : List Nat) (d : Bool)
    (h : getFilteredStmts t aty lnode node acc mystmt = some (a, d)) :
    (d = false ∧ a = acc) ∨ (d = true ∧ (a = [lnode] ∨ a = [node])) := by
  unfold getFilteredStmts at h
  split at h
  · split at h
    · split at h
      · cases h; exact Or.inr ⟨rfl, Or.inl rfl⟩
      · cases h; exact Or.inl ⟨rfl, rfl⟩
    · split at h
      · cases h
      · split at h
        · cases h; exact Or.inr ⟨rfl, Or.inr rfl⟩
        · cases h; exact Or.inl ⟨rfl, rfl⟩
  · split at h
    · cases h
    · split at h
      · cases h; exact Or.inr ⟨rfl, Or.inr rfl⟩
      · cases h; exact Or.inl ⟨rfl, rfl⟩
  · cases h; exact Or.inl ⟨rfl, rfl⟩

theorem pindexStep_sub (t : PyTree) (aty : Nat) (opt : Bool) (acc1 : List Nat)
    (accP : List (Option Nat)) (node stmt : Nat) (a2 : List Nat)
    (p2 : List (Option Nat)) (flag : Bool)
    (h : pindexStep t aty opt acc1 accP node stmt = some (a2, p2, flag)) :
    ∀ y, y ∈ a2 → y ∈ acc1 := by
  unfold pindexStep at h
  cases hfi : List.findIdx? (fun p => p == t.parent stmt) accP with
  | none =>
    rw [hfi] at h
    cases h
    exact fun y hy => hy
  | some pindex =>
    rw [hfi] at h
    dsimp only at h
    cases hget : acc1.get? pindex with
    | none => rw [hget] at h; cases h
    | some prevNode =>
      rw [hget] at h
      dsimp only at h
      cases hatp : assignType t prevNode with
      | none => rw [hatp] at h; cases h
      | some paty =>
        rw [hatp] at h
        dsimp only at h
        by_cases hpo : parentOf t paty aty = true
        · rw [if_pos hpo] at h
          cases h
          exact fun y hy => hy
        · rw [if_neg hpo] at h
          by_cases hoe : (opt || are_exclusive t prevNode node none) = true
          · rw [if_pos hoe] at h
            cases h
            exact fun y hy => hy
          · rw [if_neg hoe] at h
            cases h
            exact fun y hy => (List.eraseIdx_sublist acc1 pindex).mem hy

theorem scanBody_cont_sub (t : PyTree) (lnode mystmt : Nat) (acc : List Nat)
    (accP : List (Option Nat)) (node stmt : Nat) (acc2 : List Nat)
    (accP2 : List (Option Nat))
    (h : scanBody t lnode mystmt acc accP node stmt = StepRes.cont acc2 accP2) :
    ∀ x, x ∈ acc2 → x ∈ acc ∨ x = node := by
  intro x hx
  unfold scanBody at h
  cases hat : assignType t node with
  | none => rw [hat] at h; cases h
  | some aty =>
    rw [hat] at h
    dsimp only at h
    by_cases hb : t.hasBase node lnode = true
    · rw [if_pos hb] at h; cases h
    · rw [if_neg hb] at h
      cases hgf : getFilteredStmts t aty lnode node acc mystmt with
      | none => rw [hgf] at h; cases h
      | some pr =>
        obtain ⟨acc1, done⟩ := pr
        rw [hgf] at h
        dsimp only at h
        cases done with
        | true => rw [if_pos rfl] at h; cases h
        | false =>
          rw [if_neg (by simp)] at h
          have hacc1 : acc1 = acc := by
            cases getFilteredStmts_res t aty lnode node acc mystmt acc1 false hgf with
            | inl hh => exact hh.2
            | inr hh => cases hh.1
          rw [hacc1] at h
          by_cases hop : (optionalAssign (t.kind aty) && parentOf t aty lnode) = true
          · rw [if_pos hop] at h
            cases h
            exact Or.inr (List.mem_singleton.mp hx)
          · rw [if_neg hop] at h
            cases hpi : pindexStep t aty (optionalAssign (t.kind aty)) acc accP node stmt with
            | none => rw [hpi] at h; cases h
            | some tr =>
              obtain ⟨a2, p2, flag⟩ := tr
              rw [hpi] at h
              have ha2 : ∀ y, y ∈ a2 → y ∈ acc :=
                pindexStep_sub t aty (optionalAssign (t.kind aty)) acc accP node stmt a2 p2 flag hpi
              cases flag with
              | true =>
                dsimp only at h
                cases h
                exact Or.inl (ha2 x hx)
              | false =>
                dsimp only at h
                by_cases hdel : t.kind node = NKind.delNameK
                · rw [if_pos hdel] at h
                  cases h
                  exact absurd hx (List.not_mem_nil x)
                · rw [if_neg hdel] at h
                  have hp1 := clearedPair_fst t (optionalAssign (t.kind aty)) node stmt mystmt a2 p2
                  by_cases hex : are_exclusive t lnode node none = true
                  · rw [if_pos hex] at h
                    cases h
                    cases hp1 with
                    | inl he =>
                      rw [he] at hx
                      exact absurd hx (List.not_mem_nil x)
                    | inr he =>
                      rw [he] at hx
                      exact Or.inl (ha2 x hx)
                  · rw [if_neg hex] at h
                    cases h
                    cases List.mem_append.mp hx with
                    | inl hm =>
                      cases hp1 with
                      | inl he =>
                        rw [he] at hm
                        exact absurd hm (List.not_mem_nil x)
                      | inr he =>
                        rw [he] at hm
                        exact Or.inl (ha2 x hm)
                    | inr hm => exact Or.inr (List.mem_singleton.mp hm)

theorem scanBody_brk_cases (t : PyTree) (lnode mystmt : Nat) (acc : List Nat)
    (accP : List (Option Nat)) (node stmt : Nat) (res : List Nat)
    (h : scanBody t lnode mystmt acc accP node stmt = StepRes.brk res) :
    res = acc ∨ res = [lnode] ∨ res = [node] := by
  unfold scanBody at h
  cases hat : assignType t node with
  | none => rw [hat] at h; cases h
  | some aty =>
    rw [hat] at h
    dsimp only at h
    by_cases hb : t.hasBase node lnode = true
    · rw [if_pos hb] at h
      cases h
      exact Or.inl rfl
    · rw [if_neg hb] at h
      cases hgf : getFilteredStmts t aty lnode node acc mystmt with
      | none => rw [hgf] at h; cases h
      | some pr =>
        obtain ⟨acc1, done⟩ := pr
        rw [hgf] at h
        dsimp only at h
        cases done with
        | true =>
          rw [if_pos rfl] at h
          cases h
          cases getFilteredStmts_res t aty lnode node acc mystmt res true hgf with
          | inl hh => cases hh.1
          | inr hh => exact Or.inr hh.2
        | false =>
          rw [if_neg (by simp)] at h
          by_cases hop : (optionalAssign (t.kind aty) && parentOf t aty lnode) = true
          · rw [if_pos hop] at h; cases h
          · rw [if_neg hop] at h
            cases hpi : pindexStep t aty (optionalAssign (t.kind aty)) acc1 accP node stmt with
            | none => rw [hpi] at h; cases h
            | some tr =>
              obtain ⟨a2, p2, flag⟩ := tr
              rw [hpi] at h
              cases flag with
              | true => dsimp only at h; cases h
              | false =>
                dsimp only at h
                by_cases hdel : t.kind node = NKind.delNameK
                · rw [if_pos hdel] at h; cases h
                · rw [if_neg hdel] at h
                  by_cases hex : are_exclusive t lnode node none = true
                  · rw [if_pos hex] at h; cases h
                  · rw [if_neg hex] at h; cases h

/-! ### Properties of the scan loop -/

theorem scan_nocut (t : PyTree) (lnode mystmt : Nat) (mylineno : Int)
    (hml : mylineno ≤ 0) :
    ∀ (xs : List Nat) (acc : List Nat) (accP : List (Option Nat)),
      scanLoop t lnode mystmt mylineno acc accP xs =
        scanLoopNC t lnode mystmt acc accP xs := by
  intro xs
  induction xs with
  | nil => intro acc accP; rfl
  | cons node rest ih =>
    intro acc accP
    unfold scanLoop scanLoopNC
    cases hst : statement t node with
    | none => rfl
    | some stmt =>
      dsimp only
      rw [lineCheck_nonpos t mylineno stmt hml]
      dsimp only
      cases scanBody t lnode mystmt acc accP node stmt with
      | err => rfl
      | brk res => rfl
      | cont acc2 accP2 => exact ih acc2 accP2

theorem scan_takeWhile (t : PyTree) (lnode mystmt : Nat) (mylineno : Int)
    (hml : 0 < mylineno) :
    ∀ (xs : List Nat) (acc : List Nat) (accP : List (Option Nat)),
      scanLoop t lnode mystmt mylineno acc accP xs =
        scanLoop t lnode mystmt mylineno acc accP
          (xs.takeWhile (fun n => !exceedsB t mylineno n)) := by
  intro xs
  induction xs with
  | nil => intro acc accP; rfl
  | cons node rest ih =>
    intro acc accP
    cases hex : exceedsB t mylineno node with
    | false =>
      have htw : (node :: rest).takeWhile (fun n => !exceedsB t mylineno n)
          = node :: rest.takeWhile (fun n => !exceedsB t mylineno n) := by
        rw [List.takeWhile_cons]
        simp [hex]
      rw [htw]
      unfold scanLoop
      cases hst : statement t node with
      | none => rfl
      | some stmt =>
        dsimp only
        cases hlc : lineCheck t mylineno stmt with
        | none => rfl
        | some b =>
          cases b with
          | true => rfl
          | false =>
            dsimp only
            cases scanBody t lnode mystmt acc accP node stmt with
            | err => rfl
            | brk res => rfl
            | cont acc2 accP2 => exact ih acc2 accP2
    | true =>
      have htw : (node :: rest).takeWhile (fun n => !exceedsB t mylineno n)
          = [] := by
        rw [List.takeWhile_cons]
        simp [hex]
      rw [htw]
      unfold exceedsB at hex
      cases hst : statement t node with
      | none => rw [hst] at hex; cases hex
      | some stmt =>
        rw [hst] at hex
        dsimp only at hex
        cases hfl : t.fromlineno stmt with
        | none => rw [hfl] at hex; cases hex
        | some l =>
          rw [hfl] at hex
          dsimp only at hex
          have hlt : mylineno < l := of_decide_eq_true hex
          unfold scanLoop
          rw [hst]
          dsimp only
          have hlc : lineCheck t mylineno stmt = some true := by
            unfold lineCheck
            rw [if_pos hml, hfl]
            simp [hlt]
          rw [hlc]

theorem scan_mem (t : PyTree) (lnode mystmt : Nat) (mylineno : Int) :
    ∀ (xs : List Nat) (acc : List Nat) (accP : List (Option Nat)) (res : List Nat),
      scanLoop t lnode mystmt mylineno acc accP xs = some res →
      ∀ x, x ∈ res → x ∈ acc ∨ x = lnode ∨
        (x ∈ xs ∧ (0 < mylineno →
          ∃ s l, statement t x = some s ∧ t.fromlineno s = some l ∧ l ≤ mylineno)) := by
  intro xs
  induction xs with
  | nil =>
    intro acc accP res h x hx
    cases h
    exact Or.inl hx
  | cons node rest ih =>
    intro acc accP res h x hx
    unfold scanLoop at h
    cases hst : statement t node with
    | none => rw [hst] at h; cases h
    | some stmt =>
      rw [hst] at h
      dsimp only at h
      cases hlc : lineCheck t mylineno stmt with
      | none => rw [hlc] at h; cases h
      | some b =>
        rw [hlc] at h
        cases b with
        | true =>
          cases h
          exact Or.inl hx
        | false =>
          dsimp only at h
          have hnodeprop : 0 < mylineno →
              ∃ s l, statement t node = some s ∧ t.fromlineno s = some l ∧ l ≤ mylineno := by
            intro hm
            obtain ⟨l, hl1, hl2⟩ := lineCheck_false t mylineno stmt hm hlc
            exact ⟨stmt, l, hst, hl1, hl2⟩
          cases hsb : scanBody t lnode mystmt acc accP node stmt with
          | err => rw [hsb] at h; cases h
          | brk r =>
            rw [hsb] at h
            cases h
            cases scanBody_brk_cases t lnode mystmt acc accP node stmt res hsb with
            | inl he =>
              rw [he] at hx
              exact Or.inl hx
            | inr he =>
              cases he with
              | inl hl =>
                rw [hl] at hx
                exact Or.inr (Or.inl (List.mem_singleton.mp hx))
              | inr hn =>
                rw [hn] at hx
                have := List.mem_singleton.mp hx
                exact Or.inr (Or.inr ⟨this ▸ List.mem_cons_self node rest, this ▸ hnodeprop⟩)
          | cont acc2 accP2 =>
            rw [hsb] at h
            cases ih acc2 accP2 res h x hx with
            | inl hacc2 =>
              cases scanBody_cont_sub t lnode mystmt acc accP node stmt acc2 accP2 hsb x hacc2 with
              | inl hm => exact Or.inl hm
              | inr he =>
                exact Or.inr (Or.inr ⟨he ▸ List.mem_cons_self node rest, he ▸ hnodeprop⟩)
            | inr hrest =>
              cases hrest with
              | inl hl => exact Or.inr (Or.inl hl)
              | inr hr =>
                exact Or.inr (Or.inr ⟨List.mem_cons_of_mem node hr.1, hr.2⟩)

/-! ### Claims about `are_exclusive` -/

theorem handlerCatch_true_iff (t : PyTree) (h : Nat) (exc : Option (List String)) :
    handlerCatch t h exc = true ↔
      (t.catchNames h = none ∨ exc = none ∨
        ∃ nm, nm ∈ (t.catchNames h).getD [] ∧ nm ∈ exc.getD []) := by
  unfold handlerCatch
  cases hcn : t.catchNames h with
  | none => simp
  | some names =>
    cases exc with
    | none => simp
    | some excs =>
      simp [List.any_eq_true]

/-- C1: for statements whose first shared ancestor (the nearest common
ancestor) is a conditional (`If`) node, `are_exclusive` with
`exception_names` absent returns true exactly when the two branch-roots
lie in different named fields of the conditional, and false when they
share a field; with `exception_names` given it always returns false. -/
theorem claim_C1 (t : PyTree) (s1 s2 N r1 r2 : Nat)
    (hfc : firstCommon t s1 s2 = some (N, r1, r2))
    (hk : t.kind N = NKind.ifK) :
    (are_exclusive t s1 s2 none = true ↔ t.fieldOf r2 ≠ t.fieldOf r1) ∧
    (∀ es : List String, are_exclusive t s1 s2 (some es) = false) := by
  constructor
  · rw [are_exclusive_eq_fc, hfc]
    dsimp only
    unfold decideAt
    rw [if_pos (by simp [hk])]
    exact bne_iff_ne
  · intro es
    rw [are_exclusive_eq_fc, hfc]
    dsimp only
    unfold decideAt
    rw [if_neg (by simp), if_neg (by simp [hk])]

/-- C2: for statements whose first shared ancestor is a try-except node
with the branch-roots split between the try body and the handlers,
`are_exclusive` returns exactly what `ExceptHandler.catch` answers for the
handler-side branch-root: true when `exception_names` is absent, when the
handler has no type clause, or when some name of its type clause occurs in
`exception_names`; false otherwise. -/
theorem claim_C2 (t : PyTree) (s1 s2 N r1 r2 hs : Nat) (exc : Option (List String))
    (hfc : firstCommon t s1 s2 = some (N, r1, r2))
    (hk : t.kind N = NKind.tryExceptK)
    (hrole : (t.fieldOf r1 = "body" ∧ t.fieldOf r2 = "handlers" ∧ hs = r2) ∨
             (t.fieldOf r1 = "handlers" ∧ t.fieldOf r2 = "body" ∧ hs = r1)) :
    are_exclusive t s1 s2 exc = handlerCatch t hs exc ∧
    (are_exclusive t s1 s2 exc = true ↔
      (t.catchNames hs = none ∨ exc = none ∨
        ∃ nm, nm ∈ (t.catchNames hs).getD [] ∧ nm ∈ exc.getD [])) := by
  have hmain : are_exclusive t s1 s2 exc = handlerCatch t hs exc := by
    rw [are_exclusive_eq_fc, hfc]
    dsimp only
    unfold decideAt
    cases hrole with
    | inl hr =>
      obtain ⟨h1, h2, h3⟩ := hr
      rw [h3]
      rw [if_neg (by simp [hk]), if_pos (by simp [hk])]
      dsimp only
      rw [h1, h2]
      simp
    | inr hr =>
      obtain ⟨h1, h2, h3⟩ := hr
      rw [h3]
      rw [if_neg (by simp [hk]), if_pos (by simp [hk])]
      dsimp only
      rw [h1, h2]
      simp
  exact ⟨hmain, hmain ▸ handlerCatch_true_iff t hs exc⟩

/-- C3: `are_exclusive` is symmetric in its two statements, for every value
of the exception-names argument. -/
theorem claim_C3 (t : PyTree) (a b : Nat) (exc : Option (List String)) :
    are_exclusive t a b exc = are_exclusive t b a exc :=
  are_exclusive_comm t a b exc

/-- C9: when one node is a (proper) ancestor of the other, `are_exclusive`
returns false for any value of the exception-names argument: the
descendant's branch-root at the first shared ancestor coincides with the
ancestor-side child, so no exclusivity case applies. -/
theorem claim_C9 (t : PyTree) (s1 s2 : Nat) (exc : Option (List String))
    (h : s1 ∈ chain t s2 ∨ s2 ∈ chain t s1) :
    are_exclusive t s1 s2 exc = false := by
  cases h with
  | inl h1 => exact are_exclusive_ancestor t s1 s2 exc h1
  | inr h2 =>
    rw [are_exclusive_comm]
    exact are_exclusive_ancestor t s2 s1 exc h2

/-! ### Claims about `_filter_stmts` -/

/-- C4: when the use node's effective defining scope is not the frame that
owns the candidate list, `_filter_stmts` returns the candidate list
unchanged, in its original order and content. -/
theorem claim_C4 (t : PyTree) (lnode fr : Nat) (offset : Int) (stmts : List Nat)
    (mf : Nat) (hef : effectiveFrame t lnode offset = some mf) (hne : mf ≠ fr) :
    filter_stmts t lnode stmts fr offset = some stmts := by
  unfold filter_stmts
  rw [hef]
  dsimp only
  rw [if_pos (Or.inl hne)]

/-- C5: in the same-scope scan, with the line horizon enabled the scan
stops at the first candidate whose statement starts past the horizon
(the result only depends on the prefix before it), and every candidate in
the result has a statement start line at most the horizon; when the use
statement has no start line the horizon is disabled and the whole
candidate list is scanned by the cutoff-free loop. -/
theorem claim_C5 (t : PyTree) (lnode fr : Nat) (offset : Int) (stmts : List Nat)
    (mystmt : Nat)
    (hef : effectiveFrame t lnode offset = some fr)
    (hne : lnode ≠ fr)
    (hst : statement t lnode = some mystmt)
    (hl : lnode ∉ stmts) :
    (∀ l : Int, t.fromlineno mystmt = some l → 0 < l + offset →
      (filter_stmts t lnode stmts fr offset =
        scanLoop t lnode mystmt (l + offset) [] []
          (stmts.takeWhile (fun n => !exceedsB t (l + offset) n)) ∧
       ∀ res, filter_stmts t lnode stmts fr offset = some res →
         ∀ x, x ∈ res → x ∈ stmts →
           ∃ s li, statement t x = some s ∧ t.fromlineno s = some li ∧
             li ≤ l + offset)) ∧
    (t.fromlineno mystmt = none →
      filter_stmts t lnode stmts fr offset = scanLoopNC t lnode mystmt [] [] stmts) := by
  have hfe : filter_stmts t lnode stmts fr offset =
      scanLoop t lnode mystmt
        (match t.fromlineno mystmt with
         | some l => l + offset
         | none => 0) [] [] stmts := by
    unfold filter_stmts
    rw [hef]
    dsimp only
    rw [if_neg (by simp [hne])]
    rw [hst]
  constructor
  · intro l hfl hpos
    rw [hfl] at hfe
    dsimp only at hfe
    constructor
    · rw [hfe]
      exact scan_takeWhile t lnode mystmt (l + offset) hpos stmts [] []
    · intro res hres x hx hxs
      rw [hfe] at hres
      cases scan_mem t lnode mystmt (l + offset) stmts [] [] res hres x hx with
      | inl h0 => exact absurd h0 (List.not_mem_nil x)
      | inr h1 =>
        cases h1 with
        | inl hxl => exact absurd (hxl ▸ hxs) hl
        | inr h2 => exact h2.2 hpos
  · intro hnone
    rw [hnone] at hfe
    dsimp only at hfe
    rw [hfe]
    exact scan_nocut t lnode mystmt 0 (le_refl 0) stmts [] []

/-- C6: when the scan meets a `DelName` candidate (whose assignment kind is
the enclosing `Delete` statement) that passes the line test, is not a
self-referential base and finds no recorded same-block parent, the
accumulator is cleared, the deletion node itself is not added, and the
scan continues on the remaining candidates from the empty accumulator, so
a later binding can still be accumulated. -/
theorem scanLoop_cons (t : PyTree) (lnode mystmt : Nat) (mylineno : Int)
    (acc : List Nat) (accP : List (Option Nat)) (node : Nat) (rest : List Nat) :
    scanLoop t lnode mystmt mylineno acc accP (node :: rest) =
      match statement t node with
      | none => none
      | some stmt =>
        match lineCheck t mylineno stmt with
        | none => none
        | some true => some acc
        | some false =>
          match scanBody t lnode mystmt acc accP node stmt with
          | StepRes.err => none
          | StepRes.brk res => some res
          | StepRes.cont acc2 accP2 =>
            scanLoop t lnode mystmt mylineno acc2 accP2 rest := rfl

theorem claim_C6 (t : PyTree) (lnode mystmt : Nat) (mylineno : Int)
    (acc : List Nat) (accP : List (Option Nat)) (d : Nat) (rest : List Nat)
    (ds aty : Nat)
    (hkd : t.kind d = NKind.delNameK)
    (hsd : statement t d = some ds)
    (hlc : lineCheck t mylineno ds = some false)
    (hat : assignType t d = some aty)
    (hka : t.kind aty = NKind.deleteK)
    (hhb : t.hasBase d lnode = false)
    (hfi : List.findIdx? (fun p => p == t.parent ds) accP = none) :
    scanLoop t lnode mystmt mylineno acc accP (d :: rest) =
      scanLoop t lnode mystmt mylineno [] [] rest := by
  have hgf : getFilteredStmts t aty lnode d acc mystmt = some (acc, false) := by
    unfold getFilteredStmts
    rw [hka]
  have hps : pindexStep t aty false acc accP d ds = some (acc, accP, false) := by
    unfold pindexStep
    rw [hfi]
  have hopt : optionalAssign (t.kind aty) = false := by rw [hka]; rfl
  have hsb : scanBody t lnode mystmt acc accP d ds = StepRes.cont [] [] := by
    unfold scanBody
    rw [hat]
    dsimp only
    rw [if_neg (by simp [hhb])]
    rw [hgf]
    dsimp only
    rw [if_neg (by simp)]
    rw [hopt]
    rw [if_neg (by simp)]
    rw [hps]
    dsimp only
    rw [if_pos hkd]
  rw [scanLoop_cons, hsd]
  dsimp only
  rw [hlc]
  dsimp only
  rw [hsb]

/-- C10: when the use statement has a start line but the computed reference
line (start line plus offset) is zero or negative, the line horizon is
silently disabled: `_filter_stmts` runs the cutoff-free scan over all
candidates, exactly as in the no-start-line case. -/
theorem claim_C10 (t : PyTree) (lnode fr : Nat) (offset : Int) (stmts : List Nat)
    (mystmt : Nat) (l : Int)
    (hef : effectiveFrame t lnode offset = some fr)
    (hne : lnode ≠ fr)
    (hst : statement t lnode = some mystmt)
    (hfl : t.fromlineno mystmt = some l)
    (hle : l + offset ≤ 0) :
    filter_stmts t lnode stmts fr offset = scanLoopNC t lnode mystmt [] [] stmts := by
  unfold filter_stmts
  rw [hef]
  dsimp only
  rw [if_neg (by simp [hne])]
  rw [hst]
  dsimp only
  rw [hfl]
  dsimp only
  exact scan_nocut t lnode mystmt (l + offset) hle stmts [] []

/-! ### Claims about `unpack_infer` and `Dict.getitem` -/

theorem unpack_infer_succ (t : PyTree) (fuel stmt : Nat) :
    unpack_infer t (fuel + 1) stmt =
      if t.kind stmt = NKind.listK ∨ t.kind stmt = NKind.tupleK then
        (t.elts stmt).flatMap (fun elt => unpack_infer t fuel elt)
      else
        match t.infer stmt with
        | [] => []
        | first :: _ =>
          if first = IVal.node stmt then [first]
          else
            (t.infer stmt).flatMap (fun iv =>
              match iv with
              | IVal.yes => [IVal.yes]
              | IVal.node n => unpack_infer t fuel n) := rfl

/-- C7: for a node that is not a literal list or tuple, if the first
inferred value is the node itself then `unpack_infer` yields exactly that
single value and stops; otherwise it yields, for every fully-inferred
value, the undetermined sentinel as-is (never recursively unpacked) and
the recursive unpacking of every other value. -/
theorem claim_C7 (t : PyTree) (fuel stmt : Nat)
    (hk1 : t.kind stmt ≠ NKind.listK) (hk2 : t.kind stmt ≠ NKind.tupleK) :
    (∀ rest : List IVal, t.infer stmt = IVal.node stmt :: rest →
      unpack_infer t (fuel + 1) stmt = [IVal.node stmt]) ∧
    (∀ (first : IVal) (rest : List IVal), t.infer stmt = first :: rest →
      first ≠ IVal.node stmt →
      unpack_infer t (fuel + 1) stmt =
        (t.infer stmt).flatMap (fun iv =>
          match iv with
          | IVal.yes => [IVal.yes]
          | IVal.node n => unpack_infer t fuel n)) := by
  constructor
  · intro rest hinf
    rw [unpack_infer_succ]
    rw [if_neg (fun hc => hc.elim hk1 hk2)]
    rw [hinf]
    dsimp only
    rw [if_pos rfl]
  · intro first rest hinf hne
    rw [unpack_infer_succ]
    rw [if_neg (fun hc => hc.elim hk1 hk2)]
    rw [hinf]
    dsimp only
    rw [if_neg hne]

/-- C8: `Dict.getitem` returns the value paired with the first key whose
inference yields a constant equal to the lookup key, and on no match it
signals the item-not-found condition as the `IndexError` class — a typed
result distinguishable by callers, deliberately not the distinct
`KeyError` class and not a hard failure. -/
theorem claim_C8 (t : PyTree) (d : Nat) (k : CVal) :
    dict_getitem t d k =
      (match dictLookupSpec t k (t.items d) with
       | some v => Except.ok v
       | none => Except.error PyExc.indexError) ∧
    dict_getitem t d k ≠ Except.error PyExc.keyError := by
  have h := dict_getitem_items_eq_find t k (t.items d)
  refine ⟨h, ?_⟩
  rw [show dict_getitem t d k = dict_getitem_items t k (t.items d) from rfl, h]
  cases dictLookupSpec t k (t.items d) with
  | some v => simp
  | none => simp

/-! ### Concrete trees for the witnesses

`tree1`: a module holding an `If` (node 1: test 2, body 3 and 4,
orelse 5) and a `TryExcept` (node 6: body 7, handlers 8 — catching
TypeError — and 9 — bare —, handler bodies 10 and 11, orelse 12). -/

def tree1 : PyTree where
  parent := mkParent [none, some 0, some 1, some 1, some 1, some 1, some 0,
    some 6, some 6, some 6, some 8, some 9, some 6]
  kind := fun n =>
    if n = 1 then NKind.ifK
    else if n = 6 then NKind.tryExceptK
    else if n = 8 ∨ n = 9 then NKind.exceptHandlerK
    else NKind.otherK
  fieldOf := fun n =>
    if n = 2 then "test"
    else if n = 5 ∨ n = 12 then "orelse"
    else if n = 8 ∨ n = 9 then "handlers"
    else "body"
  catchNames := fun n => if n = 8 then some ["TypeError"] else none
  isFrame := fun n => n == 0
  isStatement := fun n => !(n == 0) && !(n == 2)
  isAssignCapable := fun _ => false
  fromlineno := fun _ => none
  hasBase := fun _ _ => false
  elts := fun _ => []
  infer := fun _ => []
  items := fun _ => []
  constVal := fun _ => none
  parent_lt := mkParent_lt _

/-- `tree2`: a module (0) holding a function (1, line 1) whose body is an
assignment (2, line 2, target 3), an expression statement (4, line 3,
using name 5), a deletion (6, line 4, `DelName` 7) and a second
assignment (8, line 5, target 9); plus a class (10, line 1) whose base
list uses name 11. -/
def tree2 : PyTree where
  parent := mkParent [none, some 0, some 1, some 2, some 1, some 4, some 1,
    some 6, some 1, some 8, some 0, some 10]
  kind := fun n =>
    if n = 3 ∨ n = 9 then NKind.assignNameK
    else if n = 5 ∨ n = 11 then NKind.nameK
    else if n = 6 then NKind.deleteK
    else if n = 7 then NKind.delNameK
    else NKind.otherK
  fieldOf := fun _ => "body"
  catchNames := fun _ => none
  isFrame := fun n => n == 0 || n == 1 || n == 10
  isStatement := fun n => n == 1 || n == 2 || n == 4 || n == 6 || n == 8 || n == 10
  isAssignCapable := fun n => n == 2 || n == 6 || n == 8
  fromlineno := fun n =>
    if n = 1 ∨ n = 10 then some 1
    else if n = 2 then some 2
    else if n = 4 then some 3
    else if n = 6 then some 4
    else if n = 8 then some 5
    else none
  hasBase := fun _ _ => false
  elts := fun _ => []
  infer := fun _ => []
  items := fun _ => []
  constVal := fun _ => none
  parent_lt := mkParent_lt _

/-- `tree3`: a module with one `Const` node (1) whose inference yields
itself. -/
def tree3 : PyTree where
  parent := mkParent [none, some 0]
  kind := fun n => if n = 1 then NKind.constK else NKind.otherK
  fieldOf := fun _ => "body"
  catchNames := fun _ => none
  isFrame := fun n => n == 0
  isStatement := fun _ => false
  isAssignCapable := fun _ => false
  fromlineno := fun _ => none
  hasBase := fun _ _ => false
  elts := fun _ => []
  infer := fun n => if n = 1 then [IVal.node 1] else [IVal.yes]
  items := fun _ => []
  constVal := fun _ => none
  parent_lt := mkParent_lt _

/-! ### Witnesses -/

theorem claim_C1_witness :
    (are_exclusive tree1 3 5 none = true ↔ tree1.fieldOf 5 ≠ tree1.fieldOf 3) ∧
    are_exclusive tree1 3 5 (some ["ValueError"]) = false :=
  ⟨(claim_C1 tree1 3 5 1 3 5 (by decide) (by decide)).1,
   (claim_C1 tree1 3 5 1 3 5 (by decide) (by decide)).2 ["ValueError"]⟩

theorem claim_C2_witness :
    (are_exclusive tree1 10 7 (some ["TypeError"]) =
      handlerCatch tree1 8 (some ["TypeError"])) ∧
    (are_exclusive tree1 10 7 (some ["TypeError"]) = true ↔
      (tree1.catchNames 8 = none ∨
        (some ["TypeError"] : Option (List String)) = none ∨
        ∃ nm, nm ∈ (tree1.catchNames 8).getD [] ∧
          nm ∈ (some ["TypeError"] : Option (List String)).getD [])) :=
  claim_C2 tree1 10 7 6 8 7 8 (some ["TypeError"]) (by decide) (by decide)
    (by decide)

theorem claim_C9_witness :
    are_exclusive tree1 1 3 (some ["TypeError"]) = false :=
  claim_C9 tree1 1 3 (some ["TypeError"]) (by decide)

theorem claim_C4_witness :
    filter_stmts tree2 5 [3, 9] 0 0 = some [3, 9] :=
  claim_C4 tree2 5 0 0 [3, 9] 1 (by decide) (by decide)

theorem claim_C5_witness :
    filter_stmts tree2 5 [3, 9] 1 0 =
      scanLoop tree2 5 4 3 [] []
        (List.takeWhile (fun n => !exceedsB tree2 3 n) [3, 9]) :=
  ((claim_C5 tree2 5 1 0 [3, 9] 4 (by decide) (by decide) (by decide)
    (by decide)).1 3 (by decide) (by decide)).1

theorem claim_C6_witness :
    scanLoop tree2 5 4 0 [3] [some 99] [7, 9] =
      scanLoop tree2 5 4 0 [] [] [9] :=
  claim_C6 tree2 5 4 0 [3] [some 99] 7 [9] 6 6 (by decide) (by decide)
    (by decide) (by decide) (by decide) (by decide) (by decide)

theorem claim_C10_witness :
    filter_stmts tree2 11 [9] 0 (-1) = scanLoopNC tree2 11 10 [] [] [9] :=
  claim_C10 tree2 11 0 (-1) [9] 10 1 (by decide) (by decide) (by decide)
    (by decide) (by decide)

theorem claim_C7_witness :
    unpack_infer tree3 1 1 = [IVal.node 1] :=
  (claim_C7 tree3 0 1 (by decide) (by decide)).1 [] (by decide)
